import Mathlib

/-!
Verification development for the customer-support agent repository.

The development shallowly embeds the parts of the code the specification
talks about:

* `src/utils/response_extractor.py` (`extract_final_answer`),
* `src/agent/nodes.py` (`parse_action_from_response`, `agent_node`,
  `tool_node`, `decide_next_step`),
* `src/tools/memory.py` (`get_embedding`, the SQL bodies of the
  retrieve- and update-memory tools).

Python strings are modelled as `String`/`List Char`; the two regular
expressions used by the code (`r"Action:\s*(.+)"` without `re.DOTALL` and
`r"Final Answer:\s*(.+)"` with `re.DOTALL`) are modelled by an explicit
leftmost-match scanner with the exact greedy/backtracking semantics of
those two patterns.  Exceptions are modelled with `Except`; external
collaborators (the sentence-transformer encoder, the pgvector similarity
operator, the tool registry's `execute_tool`) are abstracted as function
parameters, so every theorem quantifies over all their possible
behaviours.
-/

/-- Python whitespace predicate used by `\s` in `re` (for `str` patterns)
and by `str.strip`: ASCII whitespace together with the Unicode whitespace
code points. -/
def isPySpace (c : Char) : Bool :=
  c == ' ' || c == '\t' || c == '\n' || c == '\r' || c == '\x0b' || c == '\x0c' ||
  (0x1c ≤ c.toNat && c.toNat ≤ 0x1f) || c.toNat == 0x85 || c.toNat == 0xa0 ||
  c.toNat == 0x1680 || (0x2000 ≤ c.toNat && c.toNat ≤ 0x200a) ||
  c.toNat == 0x2028 || c.toNat == 0x2029 || c.toNat == 0x202f ||
  c.toNat == 0x205f || c.toNat == 0x3000

/-- Model of Python `str.strip()`: remove leading and trailing whitespace. -/
def pyStrip (l : List Char) : List Char :=
  ((l.dropWhile isPySpace).reverse.dropWhile isPySpace).reverse

/-- Behaviour of the regex fragment `\s*(.+)` (no `re.DOTALL`, so `.` does
not match a newline) applied at a fixed position whose remaining text is
`rest`, with the greedy/backtracking semantics of Python `re`: `\s*` first
consumes the maximal whitespace run; if a character remains there, the
group is the rest of that line; otherwise the engine backtracks to the
last position whose character is not a newline.  Returns the text captured
by the group, or `none` when the fragment cannot match. -/
def groupNoDotAll (rest : List Char) : Option (List Char) :=
  match rest.dropWhile isPySpace with
  | r :: rs => some ((r :: rs).takeWhile (fun c => !(c == '\n')))
  | [] =>
    match rest.reverse.find? (fun c => !(c == '\n')) with
    | some c => some [c]
    | none => none

/-- Behaviour of the regex fragment `\s*(.+)` under `re.DOTALL` (so `.`
matches any character, and the greedy `(.+)` runs to the end of the
input): the group is everything after the maximal whitespace run, or —
when only whitespace remains — the last remaining character, obtained by
backtracking `\s*` one step. -/
def groupDotAll (rest : List Char) : Option (List Char) :=
  match rest.dropWhile isPySpace with
  | r :: rs => some (r :: rs)
  | [] =>
    match rest.getLast? with
    | some c => some [c]
    | none => none

/-- Model of `re.search` for the patterns used by the code, which all have
the shape `<literal marker>\s*(.+)`: scan left to right and return the
group text of the leftmost position where the whole pattern matches.
`grp` is the semantics of the `\s*(.+)` tail (`groupNoDotAll` or
`groupDotAll`).  Faithful for the non-empty literal markers the code
uses. -/
def reSearch (grp : List Char → Option (List Char)) (m : List Char) :
    List Char → Option (List Char)
  | [] => none
  | c :: rest =>
    if m.isPrefixOf (c :: rest) then
      match grp ((c :: rest).drop m.length) with
      | some g => some g
      | none => reSearch grp m rest
    else reSearch grp m rest

/-- A parsed tool invocation, as returned by
`parse_action_from_response` in `src/agent/nodes.py`. -/
structure ParsedAction where
  action : String
  action_input : String
deriving DecidableEq, Repr

/-- Embedding of `parse_action_from_response` (src/agent/nodes.py lines
18-36): `re.search(r"Action:\s*(.+)", content)` and
`re.search(r"Action Input:\s*(.+)", content)`; when both match, return
both groups stripped, otherwise `None`. -/
def parse_action_from_response (content : String) : Option ParsedAction :=
  let am := reSearch groupNoDotAll ("Action:".toList) content.toList
  let im := reSearch groupNoDotAll ("Action Input:".toList) content.toList
  match am, im with
  | some a, some i => some ⟨(pyStrip a).asString, (pyStrip i).asString⟩
  | _, _ => none

/-- Embedding of `extract_final_answer`
(src/utils/response_extractor.py lines 4-25).  The code first runs
`re.search(r"Final Answer:\s*(.+)", content, re.DOTALL)` and then, on the
next line, evaluates the f-string
`f"Final answer match: {final_answer_match.group(1)}"` BEFORE the
`if final_answer_match:` test.  When the search returns `None` this
dereference raises `AttributeError`, modelled here as `.error`; the
cleanup code on lines 20-25 (code-block and Thought-segment removal) is
therefore unreachable and is not modelled.  On a match the function
returns the stripped group. -/
def extract_final_answer (content : String) : Except String String :=
  match reSearch groupDotAll ("Final Answer:".toList) content.toList with
  | some g => .ok (pyStrip g).asString
  | none => .error "AttributeError"

/-- Splits a character list into its newline-separated lines (model of
Python `str.splitlines` restricted to the newline character); used only
to state the spec's notion of a line beginning with a marker. -/
def splitLines : List Char → List (List Char)
  | [] => [[]]
  | c :: rest =>
    if c == '\n' then [] :: splitLines rest
    else
      match splitLines rest with
      | [] => [[c]]
      | l :: ls => (c :: l) :: ls

/-- Embedding of `SemanticMemoryTools.get_embedding` (src/tools/memory.py
lines 48-67).  The sentence-transformer encoder is an external
collaborator, abstracted as `encode`; a raised exception is an `.error`
result.  The code prepends the Nomic prefix, calls the encoder, and on
any exception returns a zero vector of 768 entries. -/
def get_embedding (encode : String → Except String (List ℚ)) (text : String)
    (is_query : Bool) : List ℚ :=
  let text2 := if is_query then "search_query: " ++ text else "search_document: " ++ text
  match encode text2 with
  | .ok v => v
  | .error _ => List.replicate 768 (0 : ℚ)

/-- A row of the `semantic_memories` table (src/models/semantic_memory.py,
as read and written by src/tools/memory.py).  Similarity scores are
modelled as rationals; `created_at` as an abstract timestamp. -/
structure MemoryRecord where
  id : Nat
  user_id : String
  content : String
  embedding : List ℚ
  importance : String
  created_at : Nat
deriving DecidableEq, Repr

/-- Stable insertion of a scored record into a list sorted descending by
score: the record goes before the first strictly smaller score, so equal
scores keep their existing order. -/
def insertDesc (p : MemoryRecord × ℚ) :
    List (MemoryRecord × ℚ) → List (MemoryRecord × ℚ)
  | [] => [p]
  | q :: rest => if q.2 < p.2 then p :: q :: rest else q :: insertDesc p rest

/-- Stable sort, descending by score: semantics of the SQL
`ORDER BY similarity DESC` clause (ties are unspecified by SQL; the
spec admits any order stable on insertion order). -/
def sortDescBySim : List (MemoryRecord × ℚ) → List (MemoryRecord × ℚ)
  | [] => []
  | p :: rest => insertDesc p (sortDescBySim rest)

/-- Semantics of the SQL query issued by `RetrieveMemoryTool._run`
(src/tools/memory.py lines 308-320):

SELECT id, content, importance, created_at,
       1 - (embedding <=> q) AS similarity
FROM semantic_memories
WHERE user_id = %s AND 1 - (embedding <=> q) > %s
ORDER BY similarity DESC LIMIT %s

`sim` abstracts the pgvector cosine-similarity expression
`1 - (embedding <=> q)`. -/
def searchMemories (sim : List ℚ → List ℚ → ℚ) (store : List MemoryRecord)
    (user_id : String) (query_embedding : List ℚ)
    (similarity_threshold : ℚ) (top_k : Nat) : List (MemoryRecord × ℚ) :=
  (sortDescBySim
    (((store.filter (fun r => r.user_id == user_id)).map
        (fun r => (r, sim query_embedding r.embedding))).filter
      (fun p => decide (similarity_threshold < p.2)))).take top_k

/-- One row of the formatted result string built by
`RetrieveMemoryTool._run` (src/tools/memory.py lines 329-332); the
3-decimal rounding of the similarity and the `strftime` date rendering
are presentation details modelled by `toString`. -/
def formatMemoryRow (i : Nat) (p : MemoryRecord × ℚ) : String :=
  toString i ++ ". [ID: " ++ toString p.1.id ++ ", Similarity: " ++ toString p.2 ++
  ", " ++ p.1.importance ++ " importance]\n" ++
  "   Content: " ++ p.1.content ++ "\n" ++
  "   Stored: " ++ toString p.1.created_at ++ "\n\n"

/-- The `enumerate(results, 1)` loop of `RetrieveMemoryTool._run`. -/
def formatMemoryRows : Nat → List (MemoryRecord × ℚ) → String
  | _, [] => ""
  | i, p :: rest => formatMemoryRow i p ++ formatMemoryRows (i + 1) rest

/-- Embedding of the happy path of `RetrieveMemoryTool._run`
(src/tools/memory.py lines 296-339), after `_validate_retrieve_memory_input`
has produced the validated parameters: embed the query in query mode, run
the SQL search, and either report the no-matches text or format the
rows. -/
def retrieveMemoryRun (encode : String → Except String (List ℚ))
    (sim : List ℚ → List ℚ → ℚ) (store : List MemoryRecord)
    (query user_id : String) (top_k : Nat) (similarity_threshold : ℚ) : String :=
  let query_embedding := get_embedding encode query true
  let results := searchMemories sim store user_id query_embedding
    similarity_threshold top_k
  if results.isEmpty then
    "No relevant memories found for query: " ++ query
  else
    "Retrieved memories:\n" ++ formatMemoryRows 1 results

/-- Semantics of the SQL statement issued by `UpdateMemoryTool._run`
(src/tools/memory.py lines 367-372):

UPDATE semantic_memories
SET content = %s, embedding = %s, created_at = NOW()
WHERE id = %s AND user_id = %s

Rows matching both the id and the owner are overwritten; all other rows
are untouched. -/
def updateMemories (store : List MemoryRecord) (mid : Nat) (uid : String)
    (newContent : String) (newEmb : List ℚ) (now : Nat) : List MemoryRecord :=
  store.map fun r =>
    if r.id == mid && r.user_id == uid then
      { r with content := newContent, embedding := newEmb, created_at := now }
    else r

/-- Whether the UPDATE's `RETURNING id` produced a row, i.e. whether some
record matches both the id and the owner. -/
def updateMatched (store : List MemoryRecord) (mid : Nat) (uid : String) : Bool :=
  store.any fun r => r.id == mid && r.user_id == uid

/-- Embedding of `UpdateMemoryTool._run` (src/tools/memory.py lines
362-383): re-embed the new content in document mode, run the scoped
UPDATE, and report success or `not found or access denied` depending on
whether a row matched.  Returns the tool's reply together with the store
after the statement. -/
def updateMemoryRun (encode : String → Except String (List ℚ))
    (store : List MemoryRecord) (mid : Nat) (new_content user_id : String)
    (now : Nat) : String × List MemoryRecord :=
  let new_embedding := get_embedding encode new_content false
  let newStore := updateMemories store mid user_id new_content new_embedding now
  if updateMatched store mid user_id then
    ("Memory " ++ toString mid ++ " updated successfully with new content: \x27" ++
      new_content.take 100 ++ "...\x27", newStore)
  else
    ("Memory " ++ toString mid ++ " not found or access denied", newStore)

/-- The output dict of `agent_node` (src/agent/nodes.py lines 39-71):
the messages to append, the `next_action` control signal, and the parsed
pending actions (empty when the node responds directly). -/
structure AgentNodeOutput where
  messages : List String
  next_action : String
  actions : List ParsedAction
deriving DecidableEq, Repr

/-- Embedding of `agent_node` (src/agent/nodes.py lines 39-71) as a
function of the model response content.  When an action parses, the raw
response is appended and control moves to the tool node; otherwise the
node calls `extract_final_answer`, whose `AttributeError` (see
`extract_final_answer`) propagates out of the node uncaught, modelled by
`.error`. -/
def agent_node (responseContent : String) : Except String AgentNodeOutput :=
  match parse_action_from_response responseContent with
  | some action_info => .ok ⟨[responseContent], "call_tool", [action_info]⟩
  | none =>
    match extract_final_answer responseContent with
    | .ok clean_answer => .ok ⟨[clean_answer], "respond", []⟩
    | .error e => .error e

/-- Embedding of `decide_next_step` (src/agent/nodes.py lines 230-246):
`call_tool` routes to the tool node, `respond` (and anything else) routes
to `respond_and_end`, which the workflow wires to END
(src/agent/workflow.py lines 47-54). -/
def decide_next_step (next_action : String) : String :=
  if next_action == "call_tool" then "tool_node" else "respond_and_end"

/-- A pending action as consumed by `tool_node` (src/agent/nodes.py lines
185-193): the code reads the `action` and `action_input` entries with
`.get`, so each may be absent (`none`). -/
structure ActionDict where
  action : Option String
  action_input : Option String
deriving DecidableEq, Repr

/-- Python truthiness of an optional string: `None` and the empty string
are falsy. -/
def truthy (o : Option String) : Bool :=
  match o with
  | some s => !(s == "")
  | none => false

/-- A LangChain `ToolMessage` as built by `tool_node`: its content and the
`tool_call_id` correlation id. -/
structure ToolMessage where
  content : String
  tool_call_id : String
deriving DecidableEq, Repr

/-- Embedding of one iteration of the action loop of `tool_node`
(src/agent/nodes.py lines 185-222).  `execute_tool` is the registry's
executor, abstracted as a parameter; a raised exception is an `.error`
result, which the `except` clause converts into an error `ToolMessage`.
A falsy tool name or argument short-circuits into the malformed-call
message, with `str(tool_name) if tool_name else "unknown"` as the
correlation id. -/
def processAction (execute_tool : String → String → Except String String)
    (action_info : ActionDict) : ToolMessage :=
  let tool_name := action_info.action
  let tool_args := action_info.action_input
  if !truthy tool_name || !truthy tool_args then
    { content := "Error: Malformed tool call received.",
      tool_call_id := if truthy tool_name then tool_name.getD "" else "unknown" }
  else
    match execute_tool (tool_name.getD "") (tool_args.getD "") with
    | .ok output => { content := output, tool_call_id := tool_name.getD "" }
    | .error e =>
      { content := "Error: Failed to execute tool " ++ tool_name.getD "" ++ ": " ++ e,
        tool_call_id := tool_name.getD "" }

/-- Embedding of `tool_node` (src/agent/nodes.py lines 166-227): process
every pending action in order, appending one `ToolMessage` per action,
and set `next_action` to `respond`.  The function is total for every
executor: no exception escapes the node. -/
def tool_node (execute_tool : String → String → Except String String)
    (actions : List ActionDict) : List ToolMessage × String :=
  (actions.map (processAction execute_tool), "respond")

example : parse_action_from_response "Action: web_search\nAction Input: cats" =
    some ⟨"web_search", "cats"⟩ := by decide

example : parse_action_from_response "just prose" = none := by decide

example : parse_action_from_response "Action Input: x\nAction:" = none := by decide

example : extract_final_answer "Thought: hmm\nFinal Answer:  42 " = .ok "42" := rfl

example : extract_final_answer "Hello world" = .error "AttributeError" := rfl

example : extract_final_answer "Final Answer:" = .error "AttributeError" := rfl

example :
    updateMemoryRun (fun _ => .ok [1]) [⟨5, "alice", "c", [0], "medium", 0⟩]
      5 "new" "bob" 9 =
    ("Memory 5 not found or access denied", [⟨5, "alice", "c", [0], "medium", 0⟩]) := by
  decide

example :
    searchMemories (fun _ e => e.headI) [⟨1, "u1", "a", [2], "low", 0⟩,
      ⟨2, "u2", "b", [3], "low", 0⟩, ⟨3, "u1", "c", [1], "low", 0⟩,
      ⟨4, "u1", "d", [3], "low", 0⟩] "u1" [] 1 2 =
    [(⟨4, "u1", "d", [3], "low", 0⟩, 3), (⟨1, "u1", "a", [2], "low", 0⟩, 2)] := by
  decide

example :
    retrieveMemoryRun (fun _ => .ok []) (fun _ e => e.headI) [] "coffee" "u1" 3 1 =
    "No relevant memories found for query: coffee" := by decide

theorem dropWhile_head_false {α : Type} {p : α → Bool} {l : List α} {r : α}
    {rs : List α} (h : l.dropWhile p = r :: rs) : p r = false := by
  induction l with
  | nil => simp at h
  | cons a t ih =>
    rw [List.dropWhile_cons] at h
    by_cases hpa : p a = true
    · rw [if_pos hpa] at h
      exact ih h
    · rw [if_neg hpa] at h
      cases h
      exact Bool.eq_false_iff.mpr hpa

theorem dropWhile_idem {α : Type} (p : α → Bool) (l : List α) :
    (l.dropWhile p).dropWhile p = l.dropWhile p := by
  cases h : l.dropWhile p with
  | nil => simp
  | cons r rs =>
    rw [List.dropWhile_cons, if_neg]
    rw [dropWhile_head_false h]
    simp

theorem dropWhile_prefix_eq {α : Type} {p : α → Bool} {l z : List α}
    (hl : l.dropWhile p = l) (hz : z <+: l) : z.dropWhile p = z := by
  cases z with
  | nil => simp
  | cons a t =>
    cases l with
    | nil => simp at hz
    | cons b s =>
      obtain ⟨k, hk⟩ := hz
      have hab : a = b := by
        have := congrArg (fun x => x.head?) hk
        simpa using this
      have hpb : p b = false := by
        rw [List.dropWhile_cons] at hl
        by_cases hptrue : p b = true
        · rw [if_pos hptrue] at hl
          have hlen := congrArg List.length hl
          have hle : (s.dropWhile p).length ≤ s.length :=
            (List.dropWhile_suffix p).length_le
          simp at hlen
          omega
        · exact Bool.eq_false_iff.mpr hptrue
      rw [List.dropWhile_cons, hab, hpb]
      simp

theorem pyStrip_dropWhile (l : List Char) :
    pyStrip (l.dropWhile isPySpace) = pyStrip l := by
  unfold pyStrip
  rw [dropWhile_idem]

theorem pyStrip_prefix_dropWhile (l : List Char) :
    pyStrip l <+: l.dropWhile isPySpace := by
  rw [← List.reverse_suffix, pyStrip, List.reverse_reverse]
  exact List.dropWhile_suffix isPySpace

theorem pyStrip_idem (l : List Char) : pyStrip (pyStrip l) = pyStrip l := by
  have h1 : (pyStrip l).dropWhile isPySpace = pyStrip l :=
    dropWhile_prefix_eq (dropWhile_idem _ _) (pyStrip_prefix_dropWhile l)
  show (((pyStrip l).dropWhile isPySpace).reverse.dropWhile isPySpace).reverse = pyStrip l
  rw [h1]
  unfold pyStrip
  rw [List.reverse_reverse, dropWhile_idem]

theorem isPySpace_newline : isPySpace '\n' = true := by decide

theorem groupNoDotAll_isSome (v : List Char) :
    (groupNoDotAll v).isSome = true ↔ ∃ c ∈ v, c ≠ '\n' := by
  unfold groupNoDotAll
  cases h : v.dropWhile isPySpace with
  | cons r rs =>
    simp only [Option.isSome_some, true_iff]
    refine ⟨r, ?_, ?_⟩
    · exact (List.dropWhile_sublist isPySpace).subset (h ▸ List.mem_cons_self r rs)
    · intro hrn
      have := dropWhile_head_false h
      rw [hrn, isPySpace_newline] at this
      cases this
  | nil =>
    cases hf : v.reverse.find? (fun c => !(c == '\n')) with
    | some c =>
      simp only [Option.isSome_some, true_iff]
      have hmem := List.mem_of_find?_eq_some hf
      have hprop := List.find?_some hf
      refine ⟨c, List.mem_reverse.mp hmem, ?_⟩
      simpa using hprop
    | none =>
      constructor
      · intro hcontra
        simp at hcontra
      · rintro ⟨c, hc, hcn⟩
        have := List.find?_eq_none.mp hf c (List.mem_reverse.mpr hc)
        simp at this
        exact absurd this hcn

theorem groupDotAll_of_ne_nil {v : List Char} (hv : v ≠ []) :
    ∃ g, groupDotAll v = some g ∧ pyStrip g = pyStrip v := by
  unfold groupDotAll
  cases h : v.dropWhile isPySpace with
  | cons r rs =>
    refine ⟨r :: rs, rfl, ?_⟩
    rw [← h, pyStrip_dropWhile]
  | nil =>
    have hall : ∀ x ∈ v, isPySpace x = true := List.dropWhile_eq_nil_iff.mp h
    cases hlast : v.getLast? with
    | none => exact absurd (List.getLast?_eq_none_iff.mp hlast) hv
    | some c =>
      refine ⟨[c], rfl, ?_⟩
      obtain ⟨ys, hys⟩ := List.getLast?_eq_some_iff.mp hlast
      have hc : isPySpace c = true := hall c (by rw [hys]; simp)
      show pyStrip [c] = pyStrip v
      unfold pyStrip
      rw [h]
      have : List.dropWhile isPySpace [c] = [] := by
        rw [List.dropWhile_cons, if_pos hc]
        simp
      rw [this]

theorem toList_asString (l : List Char) : l.asString.toList = l := rfl

theorem isPrefixOf_true_iff {l1 l2 : List Char} :
    l1.isPrefixOf l2 = true ↔ l1 <+: l2 :=
  List.isPrefixOf_iff_prefix

theorem reSearch_isSome (grp : List Char → Option (List Char)) {m : List Char}
    (hm : m ≠ []) (l : List Char) :
    (reSearch grp m l).isSome = true ↔
      ∃ u v, l = u ++ m ++ v ∧ (grp v).isSome = true := by
  induction l with
  | nil =>
    constructor
    · intro h
      simp [reSearch] at h
    · rintro ⟨u, v, heq, -⟩
      rw [List.append_assoc] at heq
      have h2 := (List.append_eq_nil.mp heq.symm).2
      exact absurd (List.append_eq_nil.mp h2).1 hm
  | cons c rest ih =>
    by_cases hpre : m.isPrefixOf (c :: rest) = true
    · obtain ⟨t, ht⟩ := isPrefixOf_true_iff.mp hpre
      have hdrop : (c :: rest).drop m.length = t := by
        rw [← ht, List.drop_left]
      cases hg : grp ((c :: rest).drop m.length) with
      | some g =>
        simp only [reSearch, hpre, if_true, hg]
        constructor
        · intro _
          refine ⟨[], t, by simpa using ht.symm, ?_⟩
          rw [hdrop] at hg
          simp [hg]
        · intro _
          simp
      | none =>
        simp only [reSearch, hpre, if_true, hg]
        rw [ih]
        constructor
        · rintro ⟨u, v, heq, hv⟩
          exact ⟨c :: u, v, by simp [heq], hv⟩
        · rintro ⟨u, v, heq, hv⟩
          cases u with
          | nil =>
            simp only [List.nil_append] at heq
            have hdv : (c :: rest).drop m.length = v := by
              rw [heq, List.drop_left]
            rw [hdv] at hg
            rw [hg] at hv
            simp at hv
          | cons a u2 =>
            simp only [List.cons_append, List.append_assoc] at heq
            injection heq with h1 h2
            refine ⟨u2, v, ?_, hv⟩
            rw [h2, List.append_assoc]
    · have hpre2 : m.isPrefixOf (c :: rest) = false := Bool.eq_false_iff.mpr hpre
      simp only [reSearch, hpre2, Bool.false_eq_true, if_false]
      rw [ih]
      constructor
      · rintro ⟨u, v, heq, hv⟩
        exact ⟨c :: u, v, by simp [heq], hv⟩
      · rintro ⟨u, v, heq, hv⟩
        cases u with
        | nil =>
          simp only [List.nil_append] at heq
          exact absurd (isPrefixOf_true_iff.mpr ⟨v, heq.symm⟩) hpre
        | cons a u2 =>
          simp only [List.cons_append, List.append_assoc] at heq
          injection heq with h1 h2
          refine ⟨u2, v, ?_, hv⟩
          rw [h2, List.append_assoc]

theorem reSearch_leftmost (grp : List Char → Option (List Char)) {m : List Char}
    (hm : m ≠ []) (u v g : List Char)
    (hfirst : ∀ i, i < u.length → ¬ m <+: (u ++ m ++ v).drop i)
    (hg : grp v = some g) :
    reSearch grp m (u ++ m ++ v) = some g := by
  induction u with
  | nil =>
    simp only [List.nil_append]
    cases m with
    | nil => exact absurd rfl hm
    | cons a ms =>
      have hpre : (a :: ms).isPrefixOf ((a :: ms) ++ v) = true :=
        isPrefixOf_true_iff.mpr (List.prefix_append _ _)
      have hdrop : ((a :: ms) ++ v).drop (a :: ms).length = v := List.drop_left _ _
      rw [List.cons_append] at hpre hdrop ⊢
      simp only [reSearch, hpre, if_true, hdrop, hg]
  | cons a u2 ih =>
    have h0 := hfirst 0 (by simp)
    simp only [List.drop_zero] at h0
    have hpre : m.isPrefixOf ((a :: u2) ++ m ++ v) = false := by
      rw [Bool.eq_false_iff]
      intro hcontra
      exact h0 (isPrefixOf_true_iff.mp hcontra)
    have hfirst2 : ∀ i, i < u2.length → ¬ m <+: (u2 ++ m ++ v).drop i := by
      intro i hi
      have := hfirst (i + 1) (by simpa using Nat.succ_lt_succ hi)
      simpa only [List.cons_append, List.drop_succ_cons] using this
    simp only [List.cons_append] at hpre ⊢
    simp only [reSearch, hpre, Bool.false_eq_true, if_false]
    exact ih hfirst2

theorem reSearch_noDotAll_isSome {m : List Char} (hm : m ≠ []) (l : List Char) :
    (reSearch groupNoDotAll m l).isSome = true ↔
      ∃ u v, l = u ++ m ++ v ∧ ∃ c ∈ v, c ≠ '\n' := by
  rw [reSearch_isSome groupNoDotAll hm l]
  constructor
  · rintro ⟨u, v, heq, hv⟩
    exact ⟨u, v, heq, (groupNoDotAll_isSome v).mp hv⟩
  · rintro ⟨u, v, heq, hv⟩
    exact ⟨u, v, heq, (groupNoDotAll_isSome v).mpr hv⟩

theorem groupNoDotAll_of_has_content {v : List Char}
    (hv : ∃ c ∈ v, c ≠ '\n') :
    ∃ g, groupNoDotAll v = some g ∧
      pyStrip g = pyStrip ((v.dropWhile isPySpace).takeWhile (fun c => !(c == '\n'))) := by
  unfold groupNoDotAll
  cases h : v.dropWhile isPySpace with
  | cons r rs =>
    exact ⟨(r :: rs).takeWhile (fun c => !(c == '\n')), rfl, rfl⟩
  | nil =>
    have hall : ∀ x ∈ v, isPySpace x = true := List.dropWhile_eq_nil_iff.mp h
    obtain ⟨c, hc, hcn⟩ := hv
    cases hf : v.reverse.find? (fun c => !(c == '\n')) with
    | none =>
      have := List.find?_eq_none.mp hf c (List.mem_reverse.mpr hc)
      simp at this
      exact absurd this hcn
    | some c2 =>
      refine ⟨[c2], rfl, ?_⟩
      have hc2 : isPySpace c2 = true :=
        hall c2 (List.mem_reverse.mp (List.mem_of_find?_eq_some hf))
      have h1 : List.dropWhile isPySpace [c2] = [] := by
        rw [List.dropWhile_cons, if_pos hc2]
        simp
      show pyStrip [c2] = pyStrip (List.takeWhile (fun c => !(c == '\n')) [])
      unfold pyStrip
      rw [h1]
      simp

/-- C2 (amended): the response parser returns an action exactly when the
substring `Action:` occurs somewhere in the text followed (at any later
position) by a character other than a newline, and likewise for
`Action Input:` — the markers need not start a line, and a marker with
nothing but newlines after it does not count.  Moreover the returned
fields are exactly the first match's captured text, trimmed: writing the
input as `u ++ marker ++ v` with `u` marking the first occurrence of the
marker, the field is the text of `v` after the whitespace the regex
skips, up to the end of that line, stripped of surrounding whitespace
(first match wins because a marker occurrence whose tail is all newlines
can only be the last occurrence). -/
theorem parse_action_spec (content : String) :
    ((parse_action_from_response content).isSome = true ↔
      ((∃ u v, content.toList = u ++ "Action:".toList ++ v ∧ ∃ c ∈ v, c ≠ '\n') ∧
       (∃ u v, content.toList = u ++ "Action Input:".toList ++ v ∧ ∃ c ∈ v, c ≠ '\n'))) ∧
    (∀ ua va ui vi : List Char,
      content.toList = ua ++ "Action:".toList ++ va →
      (∀ i, i < ua.length → ¬ ("Action:".toList <+: content.toList.drop i)) →
      (∃ c ∈ va, c ≠ '\n') →
      content.toList = ui ++ "Action Input:".toList ++ vi →
      (∀ i, i < ui.length → ¬ ("Action Input:".toList <+: content.toList.drop i)) →
      (∃ c ∈ vi, c ≠ '\n') →
      parse_action_from_response content = some
        ⟨(pyStrip ((va.dropWhile isPySpace).takeWhile (fun c => !(c == '\n')))).asString,
         (pyStrip ((vi.dropWhile isPySpace).takeWhile (fun c => !(c == '\n')))).asString⟩) := by
  constructor
  · unfold parse_action_from_response
    cases ham : reSearch groupNoDotAll ("Action:".toList) content.toList with
    | some a =>
      cases him : reSearch groupNoDotAll ("Action Input:".toList) content.toList with
      | some i =>
        simp only [Option.isSome_some, true_iff]
        constructor
        · rw [← reSearch_noDotAll_isSome (by decide) content.toList, ham]
          rfl
        · rw [← reSearch_noDotAll_isSome (by decide) content.toList, him]
          rfl
      | none =>
        constructor
        · intro h
          simp at h
        · rintro ⟨-, hB⟩
          rw [← reSearch_noDotAll_isSome (by decide) content.toList, him] at hB
          simp at hB
    | none =>
      constructor
      · intro h
        simp at h
      · rintro ⟨hA, -⟩
        rw [← reSearch_noDotAll_isSome (by decide) content.toList, ham] at hA
        simp at hA
  · intro ua va ui vi heqa hfirsta hva heqi hfirsti hvi
    obtain ⟨ga, hga, hgas⟩ := groupNoDotAll_of_has_content hva
    obtain ⟨gi, hgi, hgis⟩ := groupNoDotAll_of_has_content hvi
    have hsa : reSearch groupNoDotAll ("Action:".toList) content.toList = some ga := by
      rw [heqa] at hfirsta ⊢
      exact reSearch_leftmost groupNoDotAll (by decide) ua va ga hfirsta hga
    have hsi : reSearch groupNoDotAll ("Action Input:".toList) content.toList =
        some gi := by
      rw [heqi] at hfirsti ⊢
      exact reSearch_leftmost groupNoDotAll (by decide) ui vi gi hfirsti hgi
    unfold parse_action_from_response
    rw [hsa, hsi, ← hgas, ← hgis]

/-- C2 counterexample: the input below has a line beginning `Action:`
(its second line) and a line beginning `Action Input:` (its first line),
yet the parser returns `None`, because the only occurrence of `Action:`
is at the very end of the text where `(.+)` has nothing to match. -/
theorem parse_action_line_counterexample :
    ("Action:".toList).isPrefixOf
      ((splitLines ("Action Input: x\nAction:".toList)).getD 1 []) = true ∧
    ("Action Input:".toList).isPrefixOf
      ((splitLines ("Action Input: x\nAction:".toList)).getD 0 []) = true ∧
    parse_action_from_response "Action Input: x\nAction:" = none :=
  ⟨by decide, by decide, by decide⟩

/-- C2 witness: at a concrete well-formed response the parser returns
exactly the trimmed first-match texts. -/
theorem parse_action_spec_witness :
    parse_action_from_response "Action: web_search\nAction Input: cats" =
      some ⟨"web_search", "cats"⟩ :=
  ((parse_action_spec "Action: web_search\nAction Input: cats").2
    [] (" web_search\nAction Input: cats".toList)
    ("Action: web_search\n".toList) (" cats".toList)
    (by decide) (by decide) (by decide) (by decide) (by decide) (by decide)).trans
    (by decide)

/-- C3: on an input with no `Final Answer:` match, the final-answer
cleaner does not return the cleaned text — it raises `AttributeError`,
because `logger.debug(f"... {final_answer_match.group(1)}")` dereferences
the match object before the `None` check
(src/utils/response_extractor.py line 16); the claimed code-block and
Thought-stripping fallback on lines 20-25 is unreachable. -/
theorem extract_final_answer_raises_without_marker :
    extract_final_answer "Hello world" = .error "AttributeError" := rfl

/-- C4: the final-answer cleaner is not idempotent on the code as
written: cleaning `"Final Answer: hello"` yields `"hello"`, and cleaning
that output raises `AttributeError` (same line-16 slip as C3) instead of
returning it unchanged. -/
theorem extract_final_answer_not_idempotent :
    extract_final_answer "Final Answer: hello" = .ok "hello" ∧
    extract_final_answer "hello" = .error "AttributeError" :=
  ⟨rfl, rfl⟩

/-- C5 (amended): for every input containing `Final Answer:` followed by
at least one character, the extracted answer is the trimmed text
following the first occurrence of the marker (everything to the end of
the input, `re.DOTALL`).  `hfirst` states that `u` marks the first
occurrence. -/
theorem extract_final_answer_after_marker (content : String) (u v : List Char)
    (heq : content.toList = u ++ "Final Answer:".toList ++ v) (hv : v ≠ [])
    (hfirst : ∀ i, i < u.length →
      ¬ ("Final Answer:".toList <+: content.toList.drop i)) :
    extract_final_answer content = .ok (pyStrip v).asString := by
  obtain ⟨g, hg, hgs⟩ := groupDotAll_of_ne_nil hv
  unfold extract_final_answer
  rw [heq] at hfirst ⊢
  rw [reSearch_leftmost groupDotAll (by decide) u v g hfirst hg]
  show Except.ok (pyStrip g).asString = Except.ok (pyStrip v).asString
  rw [hgs]

/-- C5 counterexample: the input `"Final Answer:"` contains the marker
(followed by nothing), but instead of returning the trimmed empty answer
the code raises `AttributeError`: `(.+)` requires a character after the
marker, so the regex fails and the line-16 dereference blows up. -/
theorem extract_final_answer_empty_tail_counterexample :
    "Final Answer:".toList = [] ++ "Final Answer:".toList ++ [] ∧
    extract_final_answer "Final Answer:" = .error "AttributeError" :=
  ⟨by decide, rfl⟩

/-- C5 witness: concrete instance of `extract_final_answer_after_marker`. -/
theorem extract_final_answer_after_marker_witness :
    extract_final_answer "Note Final Answer:  42 " = .ok "42" :=
  (extract_final_answer_after_marker "Note Final Answer:  42 "
    ("Note ".toList) ("  42 ".toList) (by decide) (by decide) (by decide)).trans rfl

/-- C7: a model response that is pure prose (no `Action:` line) and has
no `Final Answer:` marker does not produce an assistant turn: the
non-streaming agent node calls `extract_final_answer`, which raises
`AttributeError` (see C3), and the exception propagates out of the node
uncaught.  When the prose does carry a `Final Answer:` marker the node
behaves as the claim says: exactly one cleaned assistant message,
`next_action = respond`, and `decide_next_step` routes to
`respond_and_end` (END), bypassing the tool node. -/
theorem agent_node_prose_crash :
    parse_action_from_response "Hello there" = none ∧
    agent_node "Hello there" = .error "AttributeError" ∧
    agent_node "Thought: easy\nFinal Answer: Hi" = .ok ⟨["Hi"], "respond", []⟩ ∧
    decide_next_step "respond" = "respond_and_end" :=
  ⟨by decide, rfl, rfl, rfl⟩

theorem mem_insertDesc (p x : MemoryRecord × ℚ) (l : List (MemoryRecord × ℚ)) :
    x ∈ insertDesc p l ↔ x = p ∨ x ∈ l := by
  induction l with
  | nil => simp [insertDesc]
  | cons q rest ih =>
    unfold insertDesc
    by_cases h : q.2 < p.2
    · rw [if_pos h]
      simp [List.mem_cons]
    · rw [if_neg h]
      simp [List.mem_cons, ih]
      tauto

theorem mem_sortDescBySim (x : MemoryRecord × ℚ) (l : List (MemoryRecord × ℚ)) :
    x ∈ sortDescBySim l ↔ x ∈ l := by
  induction l with
  | nil => simp [sortDescBySim]
  | cons p rest ih => simp [sortDescBySim, mem_insertDesc, ih, List.mem_cons]

theorem pairwise_insertDesc (p : MemoryRecord × ℚ) (l : List (MemoryRecord × ℚ))
    (h : l.Pairwise (fun a b => b.2 ≤ a.2)) :
    (insertDesc p l).Pairwise (fun a b => b.2 ≤ a.2) := by
  induction l with
  | nil => simp [insertDesc]
  | cons q rest ih =>
    rw [List.pairwise_cons] at h
    obtain ⟨hq, hrest⟩ := h
    unfold insertDesc
    by_cases hlt : q.2 < p.2
    · rw [if_pos hlt, List.pairwise_cons]
      constructor
      · intro x hx
        rcases List.mem_cons.mp hx with rfl | hx2
        · exact le_of_lt hlt
        · exact le_trans (hq x hx2) (le_of_lt hlt)
      · exact List.pairwise_cons.mpr ⟨hq, hrest⟩
    · rw [if_neg hlt, List.pairwise_cons]
      constructor
      · intro x hx
        rcases (mem_insertDesc p x rest).mp hx with rfl | hx2
        · exact le_of_not_lt hlt
        · exact hq x hx2
      · exact ih hrest

theorem pairwise_sortDescBySim (l : List (MemoryRecord × ℚ)) :
    (sortDescBySim l).Pairwise (fun a b => b.2 ≤ a.2) := by
  induction l with
  | nil => simp [sortDescBySim]
  | cons p rest ih => exact pairwise_insertDesc p _ ih

/-- C1: for every owner, store, similarity operator, encoder, threshold
and result count, the retrieve-memory search returns at most `top_k`
results, every result's score is strictly greater than the threshold,
results are sorted descending by score, every result belongs to the
requesting `user_id`, and when nothing qualifies the tool replies with
the no-matches text (an ordinary reply, not an error). -/
theorem retrieve_memory_search_spec (encode : String → Except String (List ℚ))
    (sim : List ℚ → List ℚ → ℚ) (store : List MemoryRecord)
    (query user_id : String) (top_k : Nat) (similarity_threshold : ℚ) :
    (searchMemories sim store user_id (get_embedding encode query true)
        similarity_threshold top_k).length ≤ top_k ∧
    (∀ p ∈ searchMemories sim store user_id (get_embedding encode query true)
        similarity_threshold top_k, similarity_threshold < p.2) ∧
    (searchMemories sim store user_id (get_embedding encode query true)
        similarity_threshold top_k).Pairwise (fun a b => b.2 ≤ a.2) ∧
    (∀ p ∈ searchMemories sim store user_id (get_embedding encode query true)
        similarity_threshold top_k, p.1.user_id = user_id) ∧
    (searchMemories sim store user_id (get_embedding encode query true)
        similarity_threshold top_k = [] →
      retrieveMemoryRun encode sim store query user_id top_k similarity_threshold =
        "No relevant memories found for query: " ++ query) := by
  refine ⟨?_, ?_, ?_, ?_, ?_⟩
  · unfold searchMemories
    rw [List.length_take]
    exact min_le_left _ _
  · intro p hp
    unfold searchMemories at hp
    have h2 := (mem_sortDescBySim _ _).mp (List.mem_of_mem_take hp)
    have h3 := List.mem_filter.mp h2
    simpa using h3.2
  · exact List.Pairwise.sublist (List.take_sublist _ _) (pairwise_sortDescBySim _)
  · intro p hp
    unfold searchMemories at hp
    have h2 := (mem_sortDescBySim _ _).mp (List.mem_of_mem_take hp)
    have h3 := (List.mem_filter.mp h2).1
    obtain ⟨r, hr, rfl⟩ := List.mem_map.mp h3
    have := (List.mem_filter.mp hr).2
    simpa using this
  · intro hres
    simp only [retrieveMemoryRun]
    rw [hres]
    simp

/-- C1 witness: a store in which nothing clears the threshold yields the
no-matches reply. -/
theorem retrieve_memory_search_spec_witness :
    retrieveMemoryRun (fun _ => Except.ok [0]) (fun _ e => e.headI)
      [⟨1, "u1", "likes coffee", [0], "medium", 0⟩] "coffee" "u1" 3 1 =
      "No relevant memories found for query: coffee" :=
  (retrieve_memory_search_spec (fun _ => Except.ok [0]) (fun _ e => e.headI)
    [⟨1, "u1", "likes coffee", [0], "medium", 0⟩] "coffee" "u1" 3 1).2.2.2.2
    (by decide)

/-- C6: updating a memory id whose owner differs from the requesting
`user_id` replies `not found or access denied` and leaves the store
byte-for-byte unchanged (in particular the foreign record keeps its
content, embedding and timestamp); the UPDATE's WHERE clause requires
both id and owner to match. -/
theorem update_memory_foreign_owner (encode : String → Except String (List ℚ))
    (store : List MemoryRecord) (mid : Nat) (new_content user_id : String)
    (now : Nat)
    (h : ∀ r ∈ store, r.id = mid → r.user_id ≠ user_id) :
    updateMemoryRun encode store mid new_content user_id now =
      ("Memory " ++ toString mid ++ " not found or access denied", store) := by
  have hcond : ∀ r ∈ store, (r.id == mid && r.user_id == user_id) = false := by
    intro r hr
    by_cases hid : r.id = mid
    · have hne := h r hr hid
      simp [hid, hne]
    · simp [hid]
  have hmatch : updateMatched store mid user_id = false := by
    unfold updateMatched
    rw [List.any_eq_false]
    intro r hr
    rw [hcond r hr]
    simp
  have hmap : updateMemories store mid user_id new_content
      (get_embedding encode new_content false) now = store := by
    unfold updateMemories
    conv_rhs => rw [← List.map_id store]
    apply List.map_congr_left
    intro r hr
    rw [hcond r hr]
    simp
  simp only [updateMemoryRun, hmatch, hmap]
  simp

/-- C6 witness: concrete foreign-owner update attempt. -/
theorem update_memory_foreign_owner_witness :
    updateMemoryRun (fun _ => Except.ok [1]) [⟨5, "alice", "c", [0], "medium", 0⟩]
      5 "new" "bob" 9 =
      ("Memory 5 not found or access denied", [⟨5, "alice", "c", [0], "medium", 0⟩]) :=
  (update_memory_foreign_owner (fun _ => Except.ok [1])
    [⟨5, "alice", "c", [0], "medium", 0⟩] 5 "new" "bob" 9 (by decide)).trans (by rfl)

/-- C9: whenever the encoder raises, `get_embedding` returns the zero
vector of the configured dimensionality — 768 entries, all 0 — rather
than propagating the exception (the function is total: its `try/except`
catches every encoder failure). -/
theorem get_embedding_failure_spec (encode : String → Except String (List ℚ))
    (text : String) (is_query : Bool) (e : String)
    (h : encode (if is_query then "search_query: " ++ text
      else "search_document: " ++ text) = .error e) :
    get_embedding encode text is_query = List.replicate 768 (0:ℚ) ∧
    (get_embedding encode text is_query).length = 768 ∧
    ∀ x ∈ get_embedding encode text is_query, x = 0 := by
  have hz : get_embedding encode text is_query = List.replicate 768 (0:ℚ) := by
    simp only [get_embedding, h]
  refine ⟨hz, ?_, ?_⟩
  · rw [hz, List.length_replicate]
  · intro x hx
    rw [hz] at hx
    exact List.eq_of_mem_replicate hx

/-- C9 witness: a failing encoder yields the zero vector. -/
theorem get_embedding_failure_spec_witness :
    get_embedding (fun _ => Except.error "boom") "hello" true =
      List.replicate 768 (0:ℚ) :=
  (get_embedding_failure_spec (fun _ => Except.error "boom") "hello" true
    "boom" rfl).1

/-- C8: for every executor behaviour and every list of pending actions,
the tool node appends exactly one tool-result turn per action, in order,
sets `next_action` to `respond`, and never lets an exception escape (the
node is a total function of the executor); when the executor raises on a
well-formed action, the corresponding turn's content is the textual
error message `Error: Failed to execute tool <name>: <exn>`, which
contains the tool name, and the tool name is its correlation id. -/
theorem tool_node_exception_spec
    (execute_tool : String → String → Except String String)
    (actions : List ActionDict) :
    (tool_node execute_tool actions).1.length = actions.length ∧
    (tool_node execute_tool actions).2 = "respond" ∧
    (∀ (i : Nat) (s x e : String),
      actions[i]? = some (ActionDict.mk (some s) (some x)) → s ≠ "" → x ≠ "" →
      execute_tool s x = .error e →
      (tool_node execute_tool actions).1[i]? =
        some (ToolMessage.mk
          ("Error: Failed to execute tool " ++ s ++ ": " ++ e) s)) := by
  refine ⟨by simp [tool_node], rfl, ?_⟩
  intro i s x e hi hs hx hexec
  show (actions.map (processAction execute_tool))[i]? = _
  rw [List.getElem?_map, hi]
  show some (processAction execute_tool (ActionDict.mk (some s) (some x))) = _
  have hts : truthy (some s) = true := by
    unfold truthy
    simp [hs]
  have htx : truthy (some x) = true := by
    unfold truthy
    simp [hx]
  simp only [processAction, hts, htx, Bool.not_true, Bool.or_self,
    Bool.false_eq_true, if_false, Option.getD_some]
  rw [hexec]

/-- C8 witness: a raising executor is converted into an error turn
naming the tool. -/
theorem tool_node_exception_spec_witness :
    (tool_node (fun _ _ => Except.error "boom")
      [⟨some "web_search", some "cats"⟩]).1[0]? =
      some ⟨"Error: Failed to execute tool web_search: boom", "web_search"⟩ :=
  (tool_node_exception_spec (fun _ _ => Except.error "boom")
    [⟨some "web_search", some "cats"⟩]).2.2 0 "web_search" "cats" "boom"
    rfl (by decide) (by decide) rfl

/-- C10 (amended): for every pending action whose tool name or input is
missing (`None`) or empty, the tool node invokes no tool — its output
does not depend on the executor — and appends the
`Error: Malformed tool call received.` turn, whose correlation id is the
tool name when the name is present and non-empty, and `unknown` when
the name is missing or empty. -/
theorem tool_node_malformed_spec
    (execute_tool execute_tool2 : String → String → Except String String)
    (a : ActionDict)
    (h : truthy a.action = false ∨ truthy a.action_input = false) :
    processAction execute_tool a = processAction execute_tool2 a ∧
    (processAction execute_tool a).content = "Error: Malformed tool call received." ∧
    (processAction execute_tool a).tool_call_id =
      (if truthy a.action then a.action.getD "" else "unknown") := by
  have hcond : (!truthy a.action || !truthy a.action_input) = true := by
    rcases h with h | h <;> simp [h]
  simp only [processAction]
  rw [hcond]
  exact ⟨rfl, rfl, rfl⟩

/-- C10 counterexample: an action whose `action` entry is present but
empty (`""`) together with a non-empty input is treated as malformed and
gets correlation id `unknown`, not the present (empty) tool name. -/
theorem tool_node_empty_name_counterexample :
    processAction (fun _ _ => Except.ok "ran") ⟨some "", some "x"⟩ =
      ⟨"Error: Malformed tool call received.", "unknown"⟩ ∧
    "unknown" ≠ "" :=
  ⟨by decide, by decide⟩

/-- C10 witness: an action with a present non-empty name but missing
input keeps the name as correlation id. -/
theorem tool_node_malformed_spec_witness :
    (processAction (fun _ _ => Except.ok "ran")
      ⟨some "web_search", none⟩).content = "Error: Malformed tool call received." ∧
    (processAction (fun _ _ => Except.ok "ran")
      ⟨some "web_search", none⟩).tool_call_id = "web_search" := by
  have h := tool_node_malformed_spec (fun _ _ => Except.ok "ran")
    (fun _ _ => Except.error "x") ⟨some "web_search", none⟩ (Or.inr rfl)
  exact ⟨h.2.1, h.2.2.trans (by decide)⟩
